import Mathlib

/-!
# Verification of the Webtapu extractor pipeline

A shallow embedding, in Lean, of the core pipeline of the Webtapu
extractor application, together with theorems settling the frozen claims
about its specification.

Conventions of the embedding:

* PDF content-stream buffers are `List Nat` (one `Nat` per byte).
* Python strings are `List Char`; `Option (List Char)` models `Optional[str]`.
* Pandas cells are `Cell` (`na` models the missing value NaN; `str` a string
  cell); `str(cell)` is `strCell` (note `str(nan) = "nan")`).
* Fallible code (Python exceptions) is modelled with `Option`, `none` being
  an uncaught exception at that level.
* The regular expressions of the source are hand-compiled to deterministic
  (or explicitly backtracking) matchers over the byte/char lists, following
  CPython `re` semantics (leftmost match, greedy/lazy preference order,
  non-overlapping substitution).  Each matcher's derivation from the
  backtracking semantics is noted at its definition.
* Numeric font sizes (`float(...)` and the `abs(sz - target) <= tol` test)
  are modelled with exact rationals over the decimal literals matched by the
  size regex; this agrees with the IEEE-double computation of the source on
  all non-knife-edge operands.
-/

/-! ## Byte-level infrastructure (watermark_remover.py) -/

/-- Python `\s` on bytes: space, tab, newline, carriage return, form feed,
vertical tab. -/
def isWs (b : Nat) : Bool :=
  b = 32 || b = 9 || b = 10 || b = 13 || b = 12 || b = 11

/-- Python `\d` on bytes: ASCII digits. -/
def isDigit (b : Nat) : Bool :=
  48 ≤ b && b ≤ 57

/-- Matcher for `re_tf = /[^\s]+?\s+([+-]?\d+(?:\.\d+)?)\s+Tf` anchored at the
head of `s`.  Returns `(consumed length, group 1 bytes)`.

The backtracking search of CPython is deterministic for this pattern:
the lazy `[^\s]+?` must stop exactly at the first whitespace byte (it can
never extend across one), each `\s+`/`\d+` is forced to its maximal run
(the following atom can never match inside the run), the optional sign and
fraction commit or fail without an alternative.  A `.` not followed by a
digit makes the whole match fail, which coincides with taking an empty
fraction and then failing the `\s+`. -/
def tryTf (s : List Nat) : Option (Nat × List Nat) :=
  match s with
  | 47 :: r0 =>
    let nm := r0.takeWhile (fun b => !isWs b)
    if nm.isEmpty then none else
    let r1 := r0.drop nm.length
    let w1 := r1.takeWhile isWs
    if w1.isEmpty then none else
    let r2 := r1.drop w1.length
    let sg : List Nat :=
      match r2 with
      | 43 :: _ => [43]
      | 45 :: _ => [45]
      | _ => []
    let r3 := r2.drop sg.length
    let ds := r3.takeWhile isDigit
    if ds.isEmpty then none else
    let r4 := r3.drop ds.length
    let fr : List Nat :=
      match r4 with
      | 46 :: t =>
        match t.takeWhile isDigit with
        | [] => []
        | fs => 46 :: fs
      | _ => []
    let r5 := r4.drop fr.length
    let w2 := r5.takeWhile isWs
    if w2.isEmpty then none else
    let r6 := r5.drop w2.length
    match r6 with
    | 84 :: 102 :: _ =>
      some (1 + nm.length + w1.length + sg.length + ds.length + fr.length
              + w2.length + 2,
            sg ++ ds ++ fr)
    | _ => none
  | _ => none

/-- Split the optional sign off a group-1 literal: `(negative?, digits…)`. -/
def sgnSplit (g : List Nat) : Bool × List Nat :=
  match g with
  | 45 :: t => (true, t)
  | 43 :: t => (false, t)
  | _ => (false, g)

/-- Value of a run of ASCII digit bytes. -/
def digitsVal (l : List Nat) : Nat :=
  l.foldl (fun a b => a * 10 + (b - 48)) 0

/-- Integer part digits of a group-1 literal. -/
def intPart (g : List Nat) : List Nat :=
  (sgnSplit g).2.takeWhile isDigit

/-- Fractional part digits of a group-1 literal (empty when there is none). -/
def fracPart (g : List Nat) : List Nat :=
  match (sgnSplit g).2.drop (intPart g).length with
  | 46 :: t => t
  | _ => []

/-- Value of the decimal literal captured by group 1 of `re_tf`, as an exact
rational (models Python `float(m.group(1))`; exact on every literal the
unit tests and real streams use, and within one double ulp everywhere). -/
def groupVal (g : List Nat) : ℚ :=
  (if (sgnSplit g).1 then -1 else 1) *
    ((digitsVal (intPart g) : ℚ)
      + (digitsVal (fracPart g) : ℚ) / (10 : ℚ) ^ (fracPart g).length)

/-- Signed integer `±(intPart ++ fracPart)` read as one digit string, i.e.
`groupVal g * 10 ^ (fracPart g).length`. -/
def sizeInt (g : List Nat) : Int :=
  (if (sgnSplit g).1 then -1 else 1) * (digitsVal (intPart g ++ fracPart g) : Int)

/-- `abs(current_size - self.target_size) <= self.tolerance` with the default
target `108.9` and tolerance `0.05`, with the denominators cleared:
`|v − 1089/10| ≤ 1/20` for `v = sizeInt g / 10 ^ k` becomes
`20·|10·sizeInt g − 1089·10^k| ≤ 10^(k+1)` (see `sizeMatch_iff_groupVal`). -/
def sizeMatch (g : List Nat) : Bool :=
  decide ((20 * (sizeInt g * 10
      - 1089 * ((10 ^ (fracPart g).length : Nat) : Int))).natAbs
    ≤ 10 ^ ((fracPart g).length + 1))

/-- `\)\s*Tj` anchored at the head: close of the string literal, greedy
whitespace (forced maximal: `T` is not whitespace) and the literal `Tj`. -/
def tjClose (s : List Nat) : Option Nat :=
  match s with
  | 41 :: rest =>
    let ws := rest.takeWhile isWs
    match rest.drop ws.length with
    | 84 :: 106 :: _ => some (1 + ws.length + 2)
    | _ => none
  | _ => none

/-- Body of `re_tj = \((?:\\.|[^\)])*\)\s*Tj` after the opening `(`.
Returns the number of bytes consumed by `(?:\\.|[^\)])*\)\s*Tj`.

Implements CPython's backtracking order exactly: the greedy star prefers
one more iteration over closing, and inside an iteration prefers `\\.`
(backslash followed by any byte except newline, `re_tj` is compiled without
`DOTALL`) over `[^\)]`. -/
def tjBody : List Nat → Option Nat
  | [] => none
  | [a] =>
    (if a ≠ 41 then (tjBody []).map (· + 1) else none).orElse
      (fun _ => tjClose [a])
  | a :: b :: rest =>
    (if a = 92 then
       if b ≠ 10 then (tjBody rest).map (· + 2) else none
     else none).orElse
      (fun _ =>
        (if a ≠ 41 then (tjBody (b :: rest)).map (· + 1) else none).orElse
          (fun _ => tjClose (a :: b :: rest)))

/-- `re_tj` anchored at the head of `s`: total number of bytes of the match. -/
def tryTjLen : List Nat → Option Nat
  | 40 :: rest => (tjBody rest).map (· + 1)
  | _ => none

/-- `\s*TJ` (after the closing `]` of the array form); the greedy `\s*` is
forced maximal since `T` is not whitespace. -/
def wsThenTJ (s : List Nat) : Option Nat :=
  let ws := s.takeWhile isWs
  match s.drop ws.length with
  | 84 :: 74 :: _ => some (ws.length + 2)
  | _ => none

/-- Body of `re_TJ = \[.*?\]\s*TJ` (compiled with `re.S`) after the opening
`[`: the lazy `.*?` tries, left to right, each position; at a `]` it first
tries to close (`\]\s*TJ`) and on failure lets `.` (which under `re.S` also
matches `]` and newlines) consume it. -/
def tjArrBody : List Nat → Option Nat
  | [] => none
  | c :: rest =>
    if c = 93 then
      match wsThenTJ rest with
      | some n => some (n + 1)
      | none => (tjArrBody rest).map (· + 1)
    else (tjArrBody rest).map (· + 1)

/-- `re_TJ` anchored at the head of `s`: total number of bytes of the match. -/
def tryTJLen : List Nat → Option Nat
  | 91 :: rest => (tjArrBody rest).map (· + 1)
  | _ => none

/-- `b"() Tj"`. -/
def tjRepl : List Nat := [40, 41, 32, 84, 106]

/-- `b"[] TJ"`. -/
def tJRepl : List Nat := [91, 93, 32, 84, 74]

/-- `re.sub` over a byte list: scan left to right, replace each (non-empty,
non-overlapping, leftmost) match of `tryM` by `repl`, copy non-matching bytes
through.  Fuelled; `fuel = length + 1` suffices because every step consumes
at least one byte. -/
def subFuel (tryM : List Nat → Option Nat) (repl : List Nat) :
    Nat → List Nat → List Nat
  | 0, s => s
  | _ + 1, [] => []
  | f + 1, b :: rest =>
    match tryM (b :: rest) with
    | some n => repl ++ subFuel tryM repl f ((b :: rest).drop n)
    | none => b :: subFuel tryM repl f rest

/-- `self.re_tj.sub(b"() Tj", chunk)`. -/
def subTj (s : List Nat) : List Nat :=
  subFuel tryTjLen tjRepl (s.length + 1) s

/-- `self.re_TJ.sub(b"[] TJ", chunk)`. -/
def subTJ (s : List Nat) : List Nat :=
  subFuel tryTJLen tJRepl (s.length + 1) s

/-- The two substitutions applied to a matching chunk, in source order. -/
def scrubChunk (s : List Nat) : List Nat :=
  subTJ (subTj s)

/-- Leftmost `re_tf` match search (models `finditer` stepping /
`re_tf.search(buf, pos)`): returns `(start offset, consumed, group 1)`. -/
def findTfAux : Nat → List Nat → Option (Nat × Nat × List Nat)
  | _, [] => none
  | 0, _ => none
  | f + 1, b :: rest =>
    match tryTf (b :: rest) with
    | some (n, g) => some (0, n, g)
    | none => (findTfAux f rest).map (fun r => (r.1 + 1, r.2.1, r.2.2))

/-- Leftmost `re_tf` match in `s`. -/
def findTf (s : List Nat) : Option (Nat × Nat × List Nat) :=
  findTfAux s.length s

/-- The per-segment loop of `scrub_stream`: `g` is the group of the size
operator that opened the current segment; the segment runs to the next
`re_tf` match (or the end of the buffer) and is substituted only when
`sizeMatch g`. -/
def scrubSegs : Nat → List Nat → List Nat → List Nat
  | 0, g, rest => if sizeMatch g then scrubChunk rest else rest
  | f + 1, g, rest =>
    match findTf rest with
    | none => if sizeMatch g then scrubChunk rest else rest
    | some (i, n, g2) =>
      (if sizeMatch g then scrubChunk (rest.take i) else rest.take i)
        ++ (rest.drop i).take n
        ++ scrubSegs f g2 ((rest.drop i).drop n)

/-- `WatermarkRemover.scrub_stream`.  Bytes before the first size operator
(or the whole buffer when there is none, `current_size` still `None`) are
copied through; each size-operator match is copied and opens a segment. -/
def scrubStream (buf : List Nat) : List Nat :=
  match findTf buf with
  | none => buf
  | some (i, n, g) =>
    buf.take i ++ (buf.drop i).take n
      ++ scrubSegs (buf.length + 1) g ((buf.drop i).drop n)

/-- `True` when no position of `buf` starts a size-setting operator whose
operand is within tolerance of the target size. -/
def noSizeTf (buf : List Nat) : Bool :=
  (List.range buf.length).all fun i =>
    match tryTf (buf.drop i) with
    | some (_, g) => !sizeMatch g
    | none => true

/-! ## Substitution decompositions (specification side of the scrubber) -/

/-- `SubD tryM repl s out`: `out` is obtained from `s` by replacing every
leftmost, non-overlapping match of `tryM` with `repl`, keeping every byte
outside the matches verbatim. -/
inductive SubD (tryM : List Nat → Option Nat) (repl : List Nat) :
    List Nat → List Nat → Prop
  | nil : SubD tryM repl [] []
  | keep {b : Nat} {rest out : List Nat} :
      tryM (b :: rest) = none → SubD tryM repl rest out →
      SubD tryM repl (b :: rest) (b :: out)
  | matched {s : List Nat} {n : Nat} {out : List Nat} :
      tryM s = some n → 0 < n → SubD tryM repl (s.drop n) out →
      SubD tryM repl s (repl ++ out)

/-- A matching segment is scrubbed by the `Tj` substitution followed by the
`TJ` substitution. -/
def ChunkScrub (c out : List Nat) : Prop :=
  ∃ mid, SubD tryTjLen tjRepl c mid ∧ SubD tryTJLen tJRepl mid out

/-- `SegsRel g rest out`: `out` is the scrubbed form of the buffer suffix
`rest`, the current segment having been opened by a size operator with
group `g`; segments whose size matches are related to their output by
`ChunkScrub`, the others are copied verbatim, and the size operators
themselves are always copied verbatim. -/
inductive SegsRel : List Nat → List Nat → List Nat → Prop
  | lastScrub {g rest out : List Nat} :
      (∀ i, tryTf (rest.drop i) = none) → sizeMatch g = true →
      ChunkScrub rest out → SegsRel g rest out
  | lastKeep {g rest : List Nat} :
      (∀ i, tryTf (rest.drop i) = none) → sizeMatch g = false →
      SegsRel g rest rest
  | stepScrub {g rest : List Nat} {i n : Nat} {g2 cout out2 : List Nat} :
      (∀ j, j < i → tryTf (rest.drop j) = none) →
      tryTf (rest.drop i) = some (n, g2) →
      sizeMatch g = true →
      ChunkScrub (rest.take i) cout →
      SegsRel g2 ((rest.drop i).drop n) out2 →
      SegsRel g rest (cout ++ (rest.drop i).take n ++ out2)
  | stepKeep {g rest : List Nat} {i n : Nat} {g2 out2 : List Nat} :
      (∀ j, j < i → tryTf (rest.drop j) = none) →
      tryTf (rest.drop i) = some (n, g2) →
      sizeMatch g = false →
      SegsRel g2 ((rest.drop i).drop n) out2 →
      SegsRel g rest (rest.take i ++ (rest.drop i).take n ++ out2)

/-- `ScrubRel buf out`: `out` decomposes over the segment structure of `buf`
(the segments being delimited by the leftmost, non-overlapping matches of the
size-setting-operator pattern) as described by `SegsRel`; a buffer without
any size operator is copied verbatim. -/
inductive ScrubRel : List Nat → List Nat → Prop
  | noTf {buf : List Nat} :
      (∀ i, tryTf (buf.drop i) = none) → ScrubRel buf buf
  | withTf {buf : List Nat} {i n : Nat} {g out : List Nat} :
      (∀ j, j < i → tryTf (buf.drop j) = none) →
      tryTf (buf.drop i) = some (n, g) →
      SegsRel g ((buf.drop i).drop n) out →
      ScrubRel buf (buf.take i ++ (buf.drop i).take n ++ out)

/-! ## Text normalisation (text_processor.py) -/

/-- Python `str.split()` / `str.strip()` whitespace, on the ASCII repertoire
of this pipeline: space, tab, newline, carriage return, vertical tab, form
feed. -/
def isPySpace (c : Char) : Bool :=
  c = ' ' || c = '\t' || c = '\n' || c = '\x0d' ||
    c = Char.ofNat 11 || c = Char.ofNat 12

/-- Python `str.split()` (no separator): maximal runs of non-whitespace.
Fuelled by the string length (each step consumes at least one char). -/
def pySplitF : Nat → List Char → List (List Char)
  | 0, _ => []
  | _ + 1, [] => []
  | f + 1, c :: rest =>
    if isPySpace c then pySplitF f rest
    else ((c :: rest).takeWhile (fun d => !isPySpace d))
      :: pySplitF f ((c :: rest).dropWhile (fun d => !isPySpace d))

/-- Python `str.split()`. -/
def pySplit (s : List Char) : List (List Char) :=
  pySplitF s.length s

/-- Python `str.strip()`. -/
def pyStrip (s : List Char) : List Char :=
  ((s.dropWhile isPySpace).reverse.dropWhile isPySpace).reverse

/-- `TextProcessor.clean`: drop newline characters, then if any word
remains, rejoin the words with single spaces (and strip), else `None`. -/
def clean (v : Option (List Char)) : Option (List Char) :=
  match v with
  | none => none
  | some s0 =>
    let s := s0.filter (fun c => c ≠ '\n')
    if (pySplit s).length > 0 then
      some (pyStrip (List.intercalate [' '] (pySplit s)))
    else none

/-- Upper-case map of a single character under the Turkish (`TR`) locale,
on the character repertoire of this pipeline (ASCII plus the Turkish
letters): models ICU `UnicodeString.toUpper(Locale("TR"))`, in particular
`i ↦ İ` and `ı ↦ I`. -/
def trUpperChar (c : Char) : Char :=
  if c = 'i' then 'İ'
  else if c = 'ı' then 'I'
  else if c = 'ç' then 'Ç'
  else if c = 'ğ' then 'Ğ'
  else if c = 'ö' then 'Ö'
  else if c = 'ş' then 'Ş'
  else if c = 'ü' then 'Ü'
  else if 'a' ≤ c && c ≤ 'z' then Char.ofNat (c.toNat - 32)
  else c

/-- Lower-case map of a single character under the Turkish locale,
`I ↦ ı` and `İ ↦ i`. -/
def trLowerChar (c : Char) : Char :=
  if c = 'I' then 'ı'
  else if c = 'İ' then 'i'
  else if c = 'Ç' then 'ç'
  else if c = 'Ğ' then 'ğ'
  else if c = 'Ö' then 'ö'
  else if c = 'Ş' then 'ş'
  else if c = 'Ü' then 'ü'
  else if 'A' ≤ c && c ≤ 'Z' then Char.ofNat (c.toNat + 32)
  else c

/-- Letters of the pipeline's repertoire (cased characters). -/
def isTrLetter (c : Char) : Bool :=
  ('a' ≤ c && c ≤ 'z') || ('A' ≤ c && c ≤ 'Z') ||
    c = 'ç' || c = 'Ç' || c = 'ğ' || c = 'Ğ' || c = 'ı' || c = 'İ' ||
    c = 'i' || c = 'I' || c = 'ö' || c = 'Ö' || c = 'ş' || c = 'Ş' ||
    c = 'ü' || c = 'Ü'

/-- Word characters for title-case word boundaries (letters and digits). -/
def isTrWordChar (c : Char) : Bool :=
  isTrLetter c || ('0' ≤ c && c ≤ '9')

/-- Title-casing scan: `pending` is true while the current word has not yet
shown a cased character; the first cased character of each word is
upper-cased, all later cased characters are lower-cased.  Models ICU
`UnicodeString.toTitle(Locale("TR"))` (Unicode default titlecasing with
UAX#29-style word boundaries) on the pipeline's repertoire. -/
def toTitleAux : Bool → List Char → List Char
  | _, [] => []
  | pending, c :: rest =>
    if isTrWordChar c then
      if isTrLetter c then
        (if pending then trUpperChar c else trLowerChar c) :: toTitleAux false rest
      else c :: toTitleAux pending rest
    else c :: toTitleAux true rest

/-- ICU Turkish title-case of a plain string. -/
def trTitle (s : List Char) : List Char :=
  toTitleAux true s

/-- `TextProcessor.upper`. -/
def pyUpper (t : Option (List Char)) : Option (List Char) :=
  t.map (List.map trUpperChar)

/-- `TextProcessor.capitalize` (ICU `toTitle` under the Turkish locale). -/
def capitalize (t : Option (List Char)) : Option (List Char) :=
  t.map trTitle

/-! ## Tables and continuation stitching (table_extractor.py) -/

/-- A pandas cell: the missing value (`NaN`) or a string. -/
inductive Cell
  | na
  | str (s : List Char)
deriving DecidableEq

/-- Python `str(cell)`: note `str(nan) = "nan"`. -/
def strCell : Cell → List Char
  | Cell.na => ['n', 'a', 'n']
  | Cell.str s => s

/-- `text_processor.clean(cell)`: the cell is never the Python `None`, so
`clean` stringifies it first (a missing value becomes `"nan"`, which cleans
to `"nan"`, not to null). -/
def cleanCell (c : Cell) : Option (List Char) :=
  clean (some (strCell c))

/-- One merge step of `fix_continuation`: cell-wise
`str(p) + " " + str(r) if str(r).strip() != "" else str(p)` over
`zip(prev_row, row)`. -/
def mergeRows (p r : List Cell) : List Cell :=
  (p.zip r).map fun pr =>
    if pyStrip (strCell pr.2) = [] then Cell.str (strCell pr.1)
    else Cell.str (strCell pr.1 ++ ' ' :: strCell pr.2)

/-- The accumulator loop of `TableExtractor.fix_continuation`; `acc` holds
the rows built so far in reverse.  `none` models an uncaught exception:
`fixed_rows[-1]` on an empty list (first row is a continuation row), or a
missing first cell (zero-column frame). -/
def fixAux : List (List Cell) → List (List Cell) → Option (List (List Cell))
  | acc, [] => some acc.reverse
  | acc, row :: rest =>
    match row.head? with
    | none => none
    | some c0 =>
      match cleanCell c0 with
      | none =>
        match acc with
        | [] => none
        | prev :: acc2 => fixAux (mergeRows prev row :: acc2) rest
      | some _ => fixAux (row :: acc) rest

/-- `TableExtractor.fix_continuation`. -/
def fixContinuation (rows : List (List Cell)) : Option (List (List Cell)) :=
  fixAux [] rows

/-- A row whose first cell exists and does not clean to null (i.e. a row
`fix_continuation` starts a new output row with). -/
def goodRow (r : List Cell) : Bool :=
  match r with
  | [] => false
  | c :: _ => (cleanCell c).isSome

/-! ## Restriction-table extraction (data_extractor.py, shape level) -/

/-- A pandas DataFrame at the granularity this pipeline needs: a column
count and the list of rows. -/
structure Table where
  cols : Nat
  rows : List (List Cell)
deriving DecidableEq

/-- `pd.isna(df.iloc[0, 0]) or df.iloc[0, 0] == ""`: the pre-stitch
header-artifact guard of `extract_mulkiyete_ait_serh_beyan`. -/
def cellNaOrEmpty : Cell → Bool
  | Cell.na => true
  | Cell.str s => s.isEmpty

/-- `DataExtractor.extract_mulkiyete_ait_serh_beyan`, shape level:
keep the 6-column tables (none → empty frame), concatenate, drop the first
row when its first cell is missing or the empty string, stitch
continuations, drop the (post-stitch) first row, name the six columns.
`none` models an uncaught exception (empty concatenation indexed at
`iloc[0,0]`, a `fix_continuation` failure, or dropping the first row of an
empty stitched frame). -/
def extractMasb (dfs : List Table) : Option Table :=
  let dfs6 := dfs.filter (fun t => t.cols == 6)
  if dfs6.isEmpty then some ⟨0, []⟩
  else
    match (dfs6.map Table.rows).flatten with
    | [] => none
    | r0 :: rest =>
      match r0.head? with
      | none => none
      | some c0 =>
        match fixContinuation (if cellNaOrEmpty c0 then rest else r0 :: rest) with
        | none => none
        | some [] => none
        | some (_ :: tl) => some ⟨6, tl⟩

/-! ## Field decomposition (text_processor.py + data_extractor.py) -/

/-- Python `\d` on text. -/
def isDigitCh (c : Char) : Bool :=
  '0' ≤ c && c ≤ '9'

/-- `[A-Fa-f0-9]`. -/
def isHexCh (c : Char) : Bool :=
  isDigitCh c || ('a' ≤ c && c ≤ 'f') || ('A' ≤ c && c ≤ 'F')

/-- Python `int(str)` (whitespace stripped, optional sign, decimal digits;
the rarely-used underscore grouping of Python 3 is outside the pipeline's
repertoire and not modelled). -/
def pyInt (s : List Char) : Option Int :=
  let t := pyStrip s
  let p : Bool × List Char :=
    match t with
    | '-' :: r => (true, r)
    | '+' :: r => (false, r)
    | _ => (false, t)
  if !p.2.isEmpty && p.2.all isDigitCh then
    let n : Nat := p.2.foldl (fun a c => a * 10 + (c.toNat - 48)) 0
    some (if p.1 then -(n : Int) else (n : Int))
  else none

/-- `TextProcessor.extract_il_ilce`. -/
def extract_il_ilce (v : List Char) :
    Option (List Char) × Option (List Char) :=
  let parts := (List.splitOn '/' v).map (fun p => capitalize (clean (some p)))
  match parts with
  | a :: b :: _ => (a, b)
  | _ => (none, none)

/-- `TextProcessor.extract_ada_parsel`. -/
def extract_ada_parsel (v : List Char) :
    Option (List Char) × Option (List Char) :=
  let parts := (List.splitOn '/' v).map (fun p => clean (some p))
  match parts with
  | a :: b :: _ => (a, b)
  | _ => (none, none)

/-- `re.sub(r"(\d+)\.(\S)", r"\1. \2", kat)`: a maximal digit run followed
by a period and a non-space character gains a space after the period;
scanning resumes after the matched non-space character. -/
def katSubF : Nat → List Char → List Char
  | 0, s => s
  | _ + 1, [] => []
  | f + 1, c :: rest =>
    if isDigitCh c then
      let ds := (c :: rest).takeWhile isDigitCh
      match (c :: rest).drop ds.length with
      | '.' :: d :: r3 =>
        if !isPySpace d then ds ++ '.' :: ' ' :: d :: katSubF f r3
        else c :: katSubF f rest
      | _ => c :: katSubF f rest
    else c :: katSubF f rest

/-- The floor re-normalisation of `extract_blok_kat_giris_bbno`
(space after ordinal periods, then word-wise Turkish title case). -/
def katFix (k : List Char) : List Char :=
  List.intercalate [' '] ((pySplit (katSubF k.length k)).map trTitle)

/-- `TextProcessor.extract_blok_kat_giris_bbno`. -/
def extract_blok_kat_giris_bbno (v : List Char) :
    Option (List Char) × Option (List Char) × Option (List Char)
      × Option (List Char) :=
  let parts := (List.splitOn '/' v).map (fun p => clean (some p))
  match parts with
  | blok :: kat :: giris :: bbno :: _ =>
    let kat2 : Option (List Char) :=
      match kat with
      | none => none
      | some k => if !k.isEmpty && k.all isDigitCh then some k
                  else some (katFix k)
    (blok, kat2, giris, bbno)
  | _ => (none, none, none, none)

/-- A Python dict value of the general-info dict. -/
inductive PyVal
  | int (n : Int)
  | str (s : List Char)
  | null
deriving DecidableEq

/-- Wrap an `Optional[str]` as a dict value. -/
def optV : Option (List Char) → PyVal
  | none => PyVal.null
  | some s => PyVal.str s

/-- `df.iloc[i, j]` (raises, i.e. `none`, when out of range). -/
def Table.iloc (t : Table) (i j : Nat) : Option Cell :=
  (t.rows.get? i).bind (fun r => r.get? j)

/-- The keys of the general-info dict, in source order. -/
def giKeys : List String :=
  ["tasinmaz_kimlik_no", "il", "ilce", "kurum_adi", "mahalle", "ada",
   "parsel", "bagimsiz_bolum_nitelik", "blok", "kat", "giris", "bbno"]

/-- The `try`-block of `DataExtractor.extract_general_info`: positional
cell access (an out-of-range access raises) and the field decompositions,
producing the twelve-entry dict literal. -/
def giTry (dfs : List Table) : Option (List (String × PyVal)) := do
  let c1 ← dfs.get? 0
  let c2 ← dfs.get? 1
  let cellTkn ← c1.iloc 1 1
  let tkn ← pyInt (strCell cellTkn)
  let cellIl ← c1.iloc 2 1
  let ii := extract_il_ilce (strCell cellIl)
  let cellBlok ← c2.iloc 5 1
  let bk := extract_blok_kat_giris_bbno (strCell cellBlok)
  let cellKurum ← c1.iloc 3 1
  let kurum := clean (some (strCell cellKurum))
  let cellMah ← c1.iloc 4 1
  let mahalle := capitalize (some (strCell cellMah))
  let cellAda ← c2.iloc 0 1
  let ap := extract_ada_parsel (strCell cellAda)
  let cellBbn ← c2.iloc 2 1
  let bbn := capitalize (clean (some (strCell cellBbn)))
  pure [("tasinmaz_kimlik_no", PyVal.int tkn), ("il", optV ii.1),
        ("ilce", optV ii.2), ("kurum_adi", optV kurum),
        ("mahalle", optV mahalle), ("ada", optV ap.1), ("parsel", optV ap.2),
        ("bagimsiz_bolum_nitelik", optV bbn), ("blok", optV bk.1),
        ("kat", optV bk.2.1), ("giris", optV bk.2.2.1),
        ("bbno", optV bk.2.2.2)]

/-- `DataExtractor.extract_general_info`: fewer than two tables, or any
exception in the `try` block, yields the empty dict. -/
def extract_general_info (dfs : List Table) : List (String × PyVal) :=
  if dfs.length < 2 then []
  else
    match giTry dfs with
    | none => []
    | some l => l

/-- `r_haciz_type = ^([^:(]+)\s*:` anchored match, returning group 1.
Backtracking is deterministic here: the greedy `[^:(]+` must reach exactly
the first `:`/`(`/end boundary — no shorter group can be followed by
whitespace and `:`, because every character of the run is itself neither a
colon (so `:` cannot match inside it) nor already consumed whitespace that
`\s*` could bridge to a colon that is not there.  So there is a match
exactly when the run is non-empty and the character that ends it is `:`,
and then group 1 is the whole run. -/
def hacizTypeMatch (s : List Char) : Option (List Char) :=
  let run := s.takeWhile (fun c => c ≠ ':' && c ≠ '(')
  if run.isEmpty then none
  else
    match s.drop run.length with
    | ':' :: _ => some run
    | _ => none

/-- One cell of the `haciz_type` column:
`.str.extract(r_haciz_type)[0].fillna('').map(clean).map(capitalize)`
(a missing description extracts to NaN, which `fillna` turns into `""`
before `clean`). -/
def hacizTypeCell (cell : Option (List Char)) : Option (List Char) :=
  let ext : Option (List Char) :=
    match cell with
    | none => none
    | some s => hacizTypeMatch s
  capitalize (clean (some (ext.getD [])))

/-- The date alternation `(\d{2}\/\d{2}\/\d{4}|BİLA)` anchored at the head
(alternatives tried in order; their first characters are disjoint). -/
def grp1At (s : List Char) : Option Nat :=
  (match s with
   | a :: b :: '/' :: c :: d :: '/' :: e :: f :: g :: h :: _ =>
     if isDigitCh a && isDigitCh b && isDigitCh c && isDigitCh d &&
        isDigitCh e && isDigitCh f && isDigitCh g && isDigitCh h then
       some 10
     else none
   | _ => none).orElse (fun _ =>
    match s with
    | 'B' :: 'İ' :: 'L' :: 'A' :: _ => some 4
    | _ => none)

/-- The file-number alternation
`(\d+\/\d+|\d+-\d+|\d+|[A-Fa-f0-9]{32})` anchored at the head.  With a
digit at the head the first three alternatives decide it (each `\d+` is a
forced maximal run); without one only the 32-hex alternative remains. -/
def filenoAt (s : List Char) : Option Nat :=
  let d1 := s.takeWhile isDigitCh
  if d1.isEmpty then
    if (s.take 32).length = 32 && (s.take 32).all isHexCh then some 32
    else none
  else
    match s.drop d1.length with
    | '/' :: r2 =>
      let d2 := r2.takeWhile isDigitCh
      if d2.isEmpty then some d1.length else some (d1.length + 1 + d2.length)
    | '-' :: r2 =>
      let d2 := r2.takeWhile isDigitCh
      if d2.isEmpty then some d1.length else some (d1.length + 1 + d2.length)
    | _ => some d1.length

/-- `r_tarih_fileno` anchored at the head: date alternation, the literal
` TARİH `, file number; returns the two captured groups. -/
def tarihFilenoAt (s : List Char) : Option (List Char × List Char) :=
  match grp1At s with
  | none => none
  | some n1 =>
    match s.drop n1 with
    | ' ' :: 'T' :: 'A' :: 'R' :: 'İ' :: 'H' :: ' ' :: r2 =>
      match filenoAt r2 with
      | none => none
      | some n2 => some (s.take n1, r2.take n2)
    | _ => none

/-- `re.search(r_tarih_fileno, s)`: leftmost match. -/
def searchTarihFileno : List Char → Option (List Char × List Char)
  | [] => none
  | c :: rest =>
    (tarihFilenoAt (c :: rest)).orElse (fun _ => searchTarihFileno rest)

/-- Tail of `r_aciklama_relevant` after the `.*`: date alternation,
` TARİH `, file number; returns the consumed length. -/
def relTailAt (s : List Char) : Option Nat :=
  match grp1At s with
  | none => none
  | some n1 =>
    match s.drop n1 with
    | ' ' :: 'T' :: 'A' :: 'R' :: 'İ' :: 'H' :: ' ' :: r2 =>
      (filenoAt r2).map (fun n2 => n1 + 7 + n2)
    | _ => none

/-- The greedy `.*` of `r_aciklama_relevant` (no `DOTALL`: stops at
newlines): prefers consuming one more character over matching the tail, so
the tail match found is the rightmost one; returns the length of
`.*` plus tail, i.e. of group 1 after the `: `. -/
def dotStarGreedy : List Char → Option Nat
  | [] => none
  | c :: rest =>
    (if c ≠ '\n' then (dotStarGreedy rest).map (· + 1) else none).orElse
      (fun _ => relTailAt (c :: rest))

/-- `r_aciklama_relevant = : (.*(date) TARİH (fileno))` anchored at the
head; returns group 1. -/
def aciklamaRelAt (s : List Char) : Option (List Char) :=
  match s with
  | ':' :: ' ' :: r => (dotStarGreedy r).map (fun n => r.take n)
  | _ => none

/-- `re.search(r_aciklama_relevant, s)`: leftmost start. -/
def searchAciklamaRel : List Char → Option (List Char)
  | [] => none
  | c :: rest =>
    (aciklamaRelAt (c :: rest)).orElse (fun _ => searchAciklamaRel rest)

/-- One output row of `extract_aciklama`. -/
structure AcikRow where
  haciz_type : Option (List Char)
  aciklama_ext : Option (List Char)
  aciklama_date : Option (List Char)
  aciklama_fileno : Option (List Char)
deriving DecidableEq

/-- `DataExtractor.extract_aciklama` over the description column.
When no row has a (non-blank) match of `r_haciz_type`, the `else` branch
builds `tarih_fileno` as a single-column frame, the concatenation has three
columns, and assigning the four column names raises a `ValueError`
(modelled as `none`).  Otherwise rows outside the mask get all-null
dependent fields through the index alignment of `pd.concat`. -/
def extract_aciklama (acik : List (Option (List Char))) :
    Option (List AcikRow) :=
  let ht := acik.map hacizTypeCell
  if ht.any (fun h => h.isSome) then
    some ((ht.zip acik).map (fun p =>
      match p.1 with
      | some t =>
        let s := p.2.getD []
        { haciz_type := some t
          aciklama_ext := searchAciklamaRel s
          aciklama_date := (searchTarihFileno s).map Prod.fst
          aciklama_fileno := (searchTarihFileno s).map Prod.snd }
      | none => ⟨none, none, none, none⟩))
  else none

/-- `\d{2}-\d{2}-\d{4}` anchored at the head: the captured date and the
rest. -/
def dmyAt (s : List Char) : Option (List Char × List Char) :=
  match s with
  | a :: b :: '-' :: c :: d :: '-' :: e :: f :: g :: h :: r =>
    if isDigitCh a && isDigitCh b && isDigitCh c && isDigitCh d &&
       isDigitCh e && isDigitCh f && isDigitCh g && isDigitCh h then
      some ([a, b, '-', c, d, '-', e, f, g, h], r)
    else none
  | _ => none

/-- `- (\d+)` anchored at the head: the journal-number group. -/
def dyTailAt (s : List Char) : Option (List Char) :=
  match s with
  | '-' :: ' ' :: r =>
    let ds := r.takeWhile isDigitCh
    if ds.isEmpty then none else some ds
  | _ => none

/-- The greedy `.*` of `r_tarih_yevmiye`: rightmost `- (\d+)` tail. -/
def dyGreedy : List Char → Option (List Char)
  | [] => none
  | c :: rest =>
    (if c ≠ '\n' then dyGreedy rest else none).orElse
      (fun _ => dyTailAt (c :: rest))

/-- `r_tarih_yevmiye = (\d{2}-\d{2}-\d{4}).*- (\d+)` anchored at the head. -/
def dateYevmiyeAt (s : List Char) : Option (List Char × List Char) :=
  match dmyAt s with
  | none => none
  | some p => (dyGreedy p.2).map (fun y => (p.1, y))

/-- `re.search(r_tarih_yevmiye, s)`. -/
def searchDateYevmiye : List Char → Option (List Char × List Char)
  | [] => none
  | c :: rest =>
    (dateYevmiyeAt (c :: rest)).orElse (fun _ => searchDateYevmiye rest)

/-- Gregorian leap year. -/
def isLeap (y : Nat) : Bool :=
  (y % 4 = 0 && y % 100 ≠ 0) || y % 400 = 0

/-- Days in a month. -/
def daysInMonth (m y : Nat) : Nat :=
  if m = 2 then (if isLeap y then 29 else 28)
  else if m = 4 || m = 6 || m = 9 || m = 11 then 30
  else 31

/-- Digit value of a character. -/
def chVal (c : Char) : Nat := c.toNat - 48

/-- Validity of a captured `dd-mm-yyyy` under
`pd.to_datetime(..., format="%d-%m-%Y")` (which raises on an impossible
date).  The year bound models the `pandas.Timestamp` range (1677-09-21 to
2262-04-11) on its interior years. -/
def dateOk (d : List Char) : Bool :=
  match d with
  | [d1, d2, '-', m1, m2, '-', y1, y2, y3, y4] =>
    let dd := chVal d1 * 10 + chVal d2
    let mm := chVal m1 * 10 + chVal m2
    let yy := chVal y1 * 1000 + chVal y2 * 100 + chVal y3 * 10 + chVal y4
    1 ≤ mm && mm ≤ 12 && 1 ≤ dd && dd ≤ daysInMonth mm yy &&
      1678 ≤ yy && yy ≤ 2261
  | _ => false

/-- `DataExtractor.extract_date_yevmiye`: regex-extract date and journal
number from each cell, parse the journal number (`to_numeric` with
`coerce`), then re-serialise the date column through `to_datetime` /
`strftime("%d/%m/%Y")` — an invalid date raises for the whole frame
(modelled as `none`). -/
def extract_date_yevmiye (tesis : List (Option (List Char))) :
    Option (List (Option (List Char) × Option Nat)) :=
  let ext := tesis.map (fun c =>
    match c with
    | none => ((none : Option (List Char)), (none : Option (List Char)))
    | some s =>
      match searchDateYevmiye s with
      | none => (none, none)
      | some p => (some p.1, some p.2))
  if ext.all (fun p =>
      match p.1 with
      | none => true
      | some d => dateOk d) then
    some (ext.map (fun p =>
      ((p.1).map (List.map (fun c => if c = '-' then '/' else c)),
       (p.2).map (fun y => y.foldl (fun a c => a * 10 + (c.toNat - 48)) 0))))
  else none

/-! ## Enforcement-office normalisation (data_extractor.py) -/

/-- Substring containment (`pat in s`). -/
def containsSub (pat : List Char) : List Char → Bool
  | [] => pat.isEmpty
  | c :: rest => pat.isPrefixOf (c :: rest) || containsSub pat rest

/-- `s.split(pat)[0]`: the characters before the first occurrence. -/
def beforeFirst (pat : List Char) : List Char → List Char
  | [] => []
  | c :: rest =>
    if pat.isPrefixOf (c :: rest) then []
    else c :: beforeFirst pat rest

/-- `DataExtractor.get_icra_dairesi`. -/
def get_icra_dairesi (v : Option (List Char)) : Option (List Char) :=
  match v with
  | none => none
  | some s =>
    if containsSub ['N', 'İ', 'N'] s then
      some (pyStrip (beforeFirst ['N', 'İ', 'N'] s))
    else none

/-- Python `\w` (word character) on the pipeline's repertoire. -/
def isRegexWord (c : Char) : Bool :=
  isTrWordChar c || c = '_'

/-- `re.sub(r'(?<=\d)\.(?!\s)', '. ', s)`: a period preceded by a digit and
not followed by whitespace (end of string counts as "not whitespace")
gains a space; `prev` tracks the previous character of the input being
scanned (lookbehind reads the input, not the output). -/
def icraRule1 : Option Char → List Char → List Char
  | _, [] => []
  | prev, c :: rest =>
    if c = '.' &&
        (match prev with | some p => isDigitCh p | none => false) &&
        (match rest with | [] => true | d :: _ => !isPySpace d) then
      '.' :: ' ' :: icraRule1 (some '.') rest
    else c :: icraRule1 (some c) rest

/-- `re.sub(r'\.\.$', '', s)` (these strings never end in a newline, the
only other position where `$` could match). -/
def icraRule2 (s : List Char) : List Char :=
  if ['.', '.'].isSuffixOf s then s.take (s.length - 2) else s

/-- `re.sub(r'\bT\.C\. ?', '', s)`: the literal `T.C.` at a word boundary,
with one optional following space, is removed.  Fuelled (every step
consumes at least one character). -/
def icraRule3F : Nat → Option Char → List Char → List Char
  | 0, _, s => s
  | _ + 1, _, [] => []
  | f + 1, prev, 'T' :: '.' :: 'C' :: '.' :: rest =>
    if (match prev with | none => true | some p => !isRegexWord p) then
      match rest with
      | ' ' :: rest2 => icraRule3F f (some ' ') rest2
      | _ => icraRule3F f (some '.') rest
    else 'T' :: icraRule3F f (some 'T') ('.' :: 'C' :: '.' :: rest)
  | f + 1, _, c :: rest => c :: icraRule3F f (some c) rest

/-- `re.sub(r'\bT\.C\. ?', '', s)`. -/
def icraRule3 (s : List Char) : List Char :=
  icraRule3F (s.length + 1) none s

/-- `str.replace(pat, rep)` (literal, non-overlapping, left to right);
fuelled, every step consumes at least one character when `pat` is
non-empty. -/
def replAllF (pat rep : List Char) : Nat → List Char → List Char
  | 0, s => s
  | _ + 1, [] => []
  | f + 1, c :: rest =>
    if pat.isPrefixOf (c :: rest) then
      rep ++ replAllF pat rep f ((c :: rest).drop pat.length)
    else c :: replAllF pat rep f rest

/-- Literal replacement of every occurrence. -/
def strReplace (pat rep s : List Char) : List Char :=
  replAllF pat rep (s.length + 1) s

/-- `[A-ZÇĞİÖŞÜ]`. -/
def isUpperTr (c : Char) : Bool :=
  ('A' ≤ c && c ≤ 'Z') || c = 'Ç' || c = 'Ğ' || c = 'İ' || c = 'Ö' ||
    c = 'Ş' || c = 'Ü'

/-- `re.sub(r'([A-ZÇĞİÖŞÜ])BELEDİYESİ', r'\1 BELEDİYESİ', s)`. -/
def icraRuleBel : Nat → List Char → List Char
  | 0, s => s
  | _ + 1, [] => []
  | f + 1, c :: rest =>
    if isUpperTr c && ("BELEDİYESİ".toList).isPrefixOf rest then
      c :: ' ' :: "BELEDİYESİ".toList
        ++ icraRuleBel f (rest.drop ("BELEDİYESİ".toList).length)
    else c :: icraRuleBel f rest

/-- `re.sub(r'S.G.M.', 'SOSYAL GÜVENLİK MERKEZİ', s)` — called with
`regex=True`, so the periods are wildcards matching any character except a
newline. -/
def icraRuleSgm : Nat → List Char → List Char
  | 0, s => s
  | _ + 1, [] => []
  | f + 1, c :: rest =>
    match c :: rest with
    | 'S' :: x :: 'G' :: y :: 'M' :: z :: r =>
      if x ≠ '\n' && y ≠ '\n' && z ≠ '\n' then
        "SOSYAL GÜVENLİK MERKEZİ".toList ++ icraRuleSgm f r
      else c :: icraRuleSgm f rest
    | _ => c :: icraRuleSgm f rest

/-- The ordered, unconditional `.str.replace` chain of
`extract_icra_dairesi`, in source order. -/
def icraChain (s : List Char) : List Char :=
  let s1 := icraRule1 none s
  let s2 := icraRule2 s1
  let s3 := icraRule3 s2
  let s4 := strReplace "İCRA MÜDÜRLÜĞÜ".toList "İCRA DAİRESİ".toList s3
  let s5 := strReplace "GEBZE 4 İCRA DAİRESİ".toList
    "GEBZE 4. İCRA DAİRESİ".toList s4
  let s6 := strReplace "ANADOLU 1 TÜKETİCİ".toList
    "ANADOLU 1. TÜKETİCİ".toList s5
  let s7 := strReplace "İCRA DAİRESİ MÜDÜRLÜĞÜ".toList "İCRA DAİRESİ".toList s6
  let s8 := strReplace "MEHKEMESİ".toList "MAHKEMESİ".toList s7
  let s9 := strReplace "MAHKEMESİNE".toList "MAHKEMESİ".toList s8
  let s10 := icraRuleBel (s9.length + 1) s9
  icraRuleSgm (s10.length + 1) s10

/-- One cell of `extract_icra_dairesi`: derive the office from the
colon-remainder, run the replacement chain, then `map(clean)` and
`map(capitalize)`.  After the `.str.replace` chain a missing entry is the
pandas NaN, which `clean` stringifies to `"nan"` (it is not the Python
`None`), so a row without an office ends up as `"Nan"`. -/
def extract_icra_cell (ext : Option (List Char)) : Option (List Char) :=
  let v1 := (get_icra_dairesi ext).map icraChain
  capitalize (clean (some (match v1 with
    | none => ['n', 'a', 'n']
    | some s => s)))

/-! ## Per-document pipeline and batch loop (pdf_processor.py, app.py) -/

/-- One cell after `df_masb.map(clean).map(upper)` (recall that `clean` of
a missing value stringifies it to `"nan"`). -/
def cellCleanUpper (c : Cell) : Option (List Char) :=
  pyUpper (clean (some (strCell c)))

/-- One row of the final per-document frame `df_final`: the six cleaned
restriction columns, the decomposed description fields, date and journal
number, enforcement office, the broadcast general-info dict, and the
source-file tag. -/
structure FinalRow where
  sbi : Option (List Char)
  aciklama : Option (List Char)
  kisitli : Option (List Char)
  malik : Option (List Char)
  tesis : Option (List Char)
  tarkin : Option (List Char)
  haciz_type : Option (List Char)
  aciklama_ext : Option (List Char)
  aciklama_date : Option (List Char)
  aciklama_fileno : Option (List Char)
  tarih : Option (List Char)
  yevmiye : Option Nat
  icra_dairesi : Option (List Char)
  general : List (String × PyVal)
  source_file : String
deriving DecidableEq

/-- `pd.concat([df_masb, df_aciklama, df_date_yevmiye, df_icra_dairesi],
axis=1)` followed by `assign(**general_info, source_file=...)`: the three
derived frames share the index of `df_masb`, and the general-info dict is
broadcast to every row. -/
def assembleRows (cleaned : List (List (Option (List Char))))
    (acikRows : List AcikRow) (dys : List (Option (List Char) × Option Nat))
    (gi : List (String × PyVal)) (name : String) : List FinalRow :=
  (cleaned.zip (acikRows.zip dys)).map (fun p =>
    { sbi := (p.1.get? 0).join
      aciklama := (p.1.get? 1).join
      kisitli := (p.1.get? 2).join
      malik := (p.1.get? 3).join
      tesis := (p.1.get? 4).join
      tarkin := (p.1.get? 5).join
      haciz_type := p.2.1.haciz_type
      aciklama_ext := p.2.1.aciklama_ext
      aciklama_date := p.2.1.aciklama_date
      aciklama_fileno := p.2.1.aciklama_fileno
      tarih := p.2.2.1
      yevmiye := p.2.2.2
      icra_dairesi := extract_icra_cell p.2.1.aciklama_ext
      general := gi
      source_file := name })

/-- `PDFProcessor.process_single_pdf`.  The file-level steps (watermark
scrub with soft fallback, Camelot grid extraction) are modelled by taking
the document as its list of extracted tables; the surrounding
`try`/`except` turns every uncaught stage exception into `None`. -/
def processSinglePdf (tables : List Table) (name : String) :
    Option (List FinalRow) :=
  if tables.isEmpty then none
  else if (extract_general_info tables).isEmpty then none
  else
    match extractMasb tables with
    | none => none
    | some masb =>
      if masb.rows.isEmpty then none
      else
        match extract_aciklama ((masb.rows.map (fun r => r.map cellCleanUpper)).map
            (fun r => (r.get? 1).join)) with
        | none => none
        | some acikRows =>
          match extract_date_yevmiye ((masb.rows.map (fun r => r.map cellCleanUpper)).map
              (fun r => (r.get? 4).join)) with
          | none => none
          | some dys =>
            some (assembleRows (masb.rows.map (fun r => r.map cellCleanUpper))
              acikRows dys (extract_general_info tables) name)

/-- A document of a batch: its extracted tables and its file name. -/
structure Doc where
  tables : List Table
  name : String
deriving DecidableEq

/-- The records a document contributes to the batch: none when
`process_single_pdf` returns `None` or an empty frame. -/
def docRecords (d : Doc) : List FinalRow :=
  match processSinglePdf d.tables d.name with
  | some (r :: rs) => r :: rs
  | _ => []

/-- A progress event, by kind and the payload fields the claims are about
(human-readable `message` strings and the float-derived `percent` display
field are elided). -/
inductive Event
  | queued
  | start (total : Nat)
  | progress (current total : Nat) (ok : Bool)
  | complete (processed failures : Nat)
  | error
  | outputReady
  | finished
deriving DecidableEq

/-- The document loop of `process_multiple_pdfs`: per document, run the
single-document pipeline, collect the frame or count a failure, and emit a
`progress` event; returns (frames, failures, events). -/
def pmLoop (total : Nat) : Nat → List Doc →
    List (List FinalRow) × Nat × List Event
  | _, [] => ([], 0, [])
  | idx, d :: ds =>
    let recs : Option (List FinalRow) :=
      match processSinglePdf d.tables d.name with
      | some (x :: xs) => some (x :: xs)
      | _ => none
    let rest := pmLoop total (idx + 1) ds
    ((match recs with | some l => l :: rest.1 | none => rest.1),
     (match recs with | some _ => rest.2.1 | none => rest.2.1 + 1),
     Event.progress idx total recs.isSome :: rest.2.2)

/-- `PDFProcessor.process_multiple_pdfs` (with a progress callback):
returns the concatenated frame and the emitted events.  No frames: a
terminal `error` event and an empty frame; otherwise the concatenation,
column-reordered with the source tag first, and a `complete` event
carrying the processed/failure counters. -/
def processMultiplePdfs (docs : List Doc) : List FinalRow × List Event :=
  let res := pmLoop docs.length 1 docs
  if res.1.isEmpty then
    ([], Event.start docs.length :: res.2.2 ++ [Event.error])
  else
    (res.1.flatten,
     Event.start docs.length :: res.2.2
       ++ [Event.complete res.1.length res.2.1])

/-- The requested output format. -/
inductive Fmt
  | excel
  | csv
  | other
deriving DecidableEq

/-- `process_pdf_files`: run the batch, then fail on an empty frame, an
unsupported format, or a failed write, else report the output; `writeOk`
models the file-system outcome of the output writer (an external
collaborator).  Returns (success, events). -/
def processPdfFiles (docs : List Doc) (fmt : Fmt) (writeOk : Bool) :
    Bool × List Event :=
  let res := processMultiplePdfs docs
  if res.1.isEmpty then (false, res.2 ++ [Event.error])
  else if fmt = Fmt.excel then
    (if writeOk then (true, res.2 ++ [Event.outputReady])
     else (false, res.2 ++ [Event.error]))
  else if fmt = Fmt.csv then
    (if writeOk then (true, res.2 ++ [Event.outputReady])
     else (false, res.2 ++ [Event.error]))
  else (false, res.2 ++ [Event.error])

/-- The full per-job event stream written to the job's progress channel:
`queued` at submission (`api_process`), the pipeline events, and the final
`finished`/`error` written by the worker `process_job`. -/
def processJobEvents (docs : List Doc) (fmt : Fmt) (writeOk : Bool) :
    List Event :=
  let res := processPdfFiles docs fmt writeOk
  Event.queued :: res.2 ++ (if res.1 then [Event.finished] else [Event.error])

/-- Checker for the claim as stated: no event of any kind follows a
terminal (`finished`/`error`) event. -/
def noEventAfterTerminal : List Event → Bool
  | [] => true
  | Event.error :: rest => rest.isEmpty
  | Event.finished :: rest => rest.isEmpty
  | _ :: rest => noEventAfterTerminal rest

/-- Checker for the amended claim: nothing follows a `finished` event, and
everything following an `error` event is again an `error` event. -/
def postTerminalOk : List Event → Bool
  | [] => true
  | Event.error :: rest => rest.all (fun e => e == Event.error)
  | Event.finished :: rest => rest.isEmpty
  | _ :: rest => postTerminalOk rest

/-! ## Concrete documents used by the witnesses -/

/-- First header table of the sample document. -/
def gdT1 : Table := ⟨2, [
  [Cell.str "TAŞINMAZ".toList, Cell.str "X".toList],
  [Cell.str "KİMLİK".toList, Cell.str "12345".toList],
  [Cell.str "İL/İLÇE".toList, Cell.str "ANKARA / ÇANKAYA".toList],
  [Cell.str "KURUM".toList, Cell.str "ABC".toList],
  [Cell.str "MAHALLE".toList, Cell.str "YENİ".toList]]⟩

/-- Second header table of the sample document. -/
def gdT2 : Table := ⟨2, [
  [Cell.str "ADA/PARSEL".toList, Cell.str "101 / 5".toList],
  [Cell.str "R1".toList, Cell.str "x".toList],
  [Cell.str "NİTELİK".toList, Cell.str "MESKEN".toList],
  [Cell.str "R3".toList, Cell.str "x".toList],
  [Cell.str "R4".toList, Cell.str "x".toList],
  [Cell.str "BLOK".toList, Cell.str "A / 1 / B / 2".toList]]⟩

/-- Six-column restriction table of the sample document (header row plus
one data row). -/
def gdT3 : Table := ⟨6, [
  [Cell.str "S/B/İ".toList, Cell.str "AÇIKLAMA".toList, Cell.str "AD".toList,
   Cell.str "ML".toList, Cell.str "TS".toList, Cell.str "TR".toList],
  [Cell.str "B".toList, Cell.str "HACİZ: X 01/01/2020 TARİH 123/45".toList,
   Cell.str "AD SOYAD".toList, Cell.str "M".toList, Cell.str "T".toList,
   Cell.str "-".toList]]⟩

/-- A document every stage of the pipeline succeeds on. -/
def gdDoc : Doc := ⟨[gdT1, gdT2, gdT3], "good.pdf"⟩

/-- A document that fails (no tables extracted). -/
def bdDoc : Doc := ⟨[], "bad.pdf"⟩

/-- The general-info dict the sample document extracts to. -/
def gdInfo : List (String × PyVal) :=
  [("tasinmaz_kimlik_no", PyVal.int 12345),
   ("il", PyVal.str "Ankara".toList),
   ("ilce", PyVal.str "Çankaya".toList),
   ("kurum_adi", PyVal.str "ABC".toList),
   ("mahalle", PyVal.str "Yeni".toList),
   ("ada", PyVal.str "101".toList),
   ("parsel", PyVal.str "5".toList),
   ("bagimsiz_bolum_nitelik", PyVal.str "Mesken".toList),
   ("blok", PyVal.str "A".toList),
   ("kat", PyVal.str "1".toList),
   ("giris", PyVal.str "B".toList),
   ("bbno", PyVal.str "2".toList)]

/-- The single record the sample document yields. -/
def gdRow : FinalRow :=
  { sbi := some "B".toList
    aciklama := some "HACİZ: X 01/01/2020 TARİH 123/45".toList
    kisitli := some "AD SOYAD".toList
    malik := some "M".toList
    tesis := some "T".toList
    tarkin := some "-".toList
    haciz_type := some "Haciz".toList
    aciklama_ext := some "X 01/01/2020 TARİH 123/45".toList
    aciklama_date := some "01/01/2020".toList
    aciklama_fileno := some "123/45".toList
    tarih := none
    yevmiye := none
    icra_dairesi := some "Nan".toList
    general := gdInfo
    source_file := "good.pdf" }

theorem tryTf_nil : tryTf [] = none := rfl

theorem tryTf_pos {s : List Nat} {n : Nat} {g : List Nat}
    (h : tryTf s = some (n, g)) : 0 < n := by
  simp only [tryTf] at h
  repeat' split at h
  all_goals (try exact Option.noConfusion h)
  all_goals (simp only [Option.some.injEq, Prod.mk.injEq] at h; omega)

theorem tryTjLen_pos {s : List Nat} {n : Nat}
    (h : tryTjLen s = some n) : 0 < n := by
  unfold tryTjLen at h
  split at h
  · rcases Option.map_eq_some'.mp h with ⟨m, _, hm⟩
    omega
  · exact Option.noConfusion h

theorem tryTJLen_pos {s : List Nat} {n : Nat}
    (h : tryTJLen s = some n) : 0 < n := by
  unfold tryTJLen at h
  split at h
  · rcases Option.map_eq_some'.mp h with ⟨m, _, hm⟩
    omega
  · exact Option.noConfusion h

theorem findTfAux_none :
    ∀ (f : Nat) (s : List Nat), s.length ≤ f → findTfAux f s = none →
      ∀ i, tryTf (s.drop i) = none := by
  intro f
  induction f with
  | zero =>
    intro s hs _ i
    have : s = [] := List.eq_nil_of_length_eq_zero (Nat.le_zero.mp hs)
    subst this
    simp [List.drop_nil, tryTf_nil]
  | succ f ih =>
    intro s hs h i
    match s with
    | [] => simp [List.drop_nil, tryTf_nil]
    | b :: rest =>
      rw [findTfAux] at h
      rcases hb : tryTf (b :: rest) with _ | v
      · match i with
        | 0 => exact hb
        | i + 1 =>
          exact ih rest (by simpa using Nat.succ_le_succ_iff.mp hs)
            (by rw [hb] at h; simpa using h) i
      · rw [hb] at h; simp at h

theorem findTfAux_some :
    ∀ (f : Nat) (s : List Nat) (i n : Nat) (g : List Nat),
      findTfAux f s = some (i, n, g) →
      (∀ j, j < i → tryTf (s.drop j) = none) ∧ tryTf (s.drop i) = some (n, g) := by
  intro f
  induction f with
  | zero =>
    intro s i n g h
    match s with
    | [] => exact Option.noConfusion h
    | b :: rest => exact Option.noConfusion h
  | succ f ih =>
    intro s i n g h
    match s with
    | [] => exact Option.noConfusion h
    | b :: rest =>
      rw [findTfAux] at h
      rcases hb : tryTf (b :: rest) with _ | v
      · rw [hb] at h
        simp only [Option.map_eq_some'] at h
        rcases h with ⟨⟨i', n', g'⟩, haux, heq⟩
        have h2 := ih rest i' n' g' haux
        simp only [Prod.mk.injEq] at heq
        obtain ⟨hi, hn, hg⟩ := heq
        subst hi; subst hn; subst hg
        constructor
        · intro j hj
          match j with
          | 0 => exact hb
          | j + 1 => exact h2.1 j (by omega)
        · simpa using h2.2
      · rcases v with ⟨n', g'⟩
        rw [hb] at h
        simp only [Option.some.injEq, Prod.mk.injEq] at h
        obtain ⟨hi, hn, hg⟩ := h
        subst hi; subst hn; subst hg
        exact ⟨fun j hj => absurd hj (by omega), by simpa using hb⟩

theorem findTf_none {s : List Nat} (h : findTf s = none) :
    ∀ i, tryTf (s.drop i) = none :=
  findTfAux_none s.length s le_rfl h

theorem findTf_some {s : List Nat} {i n : Nat} {g : List Nat}
    (h : findTf s = some (i, n, g)) :
    (∀ j, j < i → tryTf (s.drop j) = none) ∧ tryTf (s.drop i) = some (n, g) :=
  findTfAux_some s.length s i n g h

theorem subFuel_subD (tryM : List Nat → Option Nat) (repl : List Nat)
    (hpos : ∀ s n, tryM s = some n → 0 < n) :
    ∀ (f : Nat) (s : List Nat), s.length ≤ f →
      SubD tryM repl s (subFuel tryM repl f s) := by
  intro f
  induction f with
  | zero =>
    intro s hs
    have : s = [] := List.eq_nil_of_length_eq_zero (Nat.le_zero.mp hs)
    subst this
    exact SubD.nil
  | succ f ih =>
    intro s hs
    match s with
    | [] => exact SubD.nil
    | b :: rest =>
      rw [subFuel]
      rcases hb : tryM (b :: rest) with _ | m
      · exact SubD.keep hb (ih rest (by simpa using Nat.succ_le_succ_iff.mp hs))
      · refine SubD.matched hb (hpos _ _ hb) (ih _ ?_)
        have := hpos _ _ hb
        simp only [List.length_cons] at hs
        simp only [List.length_drop, List.length_cons]
        omega

theorem subTj_subD (s : List Nat) : SubD tryTjLen tjRepl s (subTj s) :=
  subFuel_subD _ _ (fun _ _ h => tryTjLen_pos h) _ _ (by omega)

theorem subTJ_subD (s : List Nat) : SubD tryTJLen tJRepl s (subTJ s) :=
  subFuel_subD _ _ (fun _ _ h => tryTJLen_pos h) _ _ (by omega)

theorem scrubChunk_chunkScrub (s : List Nat) : ChunkScrub s (scrubChunk s) :=
  ⟨subTj s, subTj_subD s, subTJ_subD (subTj s)⟩

theorem scrubSegs_rel :
    ∀ (f : Nat) (g rest : List Nat), rest.length < f →
      SegsRel g rest (scrubSegs f g rest) := by
  intro f
  induction f with
  | zero => intro g rest h; omega
  | succ f ih =>
    intro g rest hlen
    rw [scrubSegs]
    rcases hf : findTf rest with _ | v
    · have hnone := findTf_none hf
      cases hsz : sizeMatch g
      · simpa [hsz] using SegsRel.lastKeep hnone hsz
      · simpa [hsz] using SegsRel.lastScrub hnone hsz (scrubChunk_chunkScrub rest)
    · rcases v with ⟨i, n, g2⟩
      have hs := findTf_some hf
      have hn : 0 < n := tryTf_pos hs.2
      have hfuel : ((rest.drop i).drop n).length < f := by
        simp only [List.length_drop]
        by_cases hi : i < rest.length
        · omega
        · have : rest.drop i = [] := List.drop_eq_nil_of_le (by omega)
          rw [this] at hs
          exact absurd hs.2 (by simp [tryTf_nil])
      cases hsz : sizeMatch g
      · simpa [hsz] using SegsRel.stepKeep hs.1 hs.2 hsz (ih g2 _ hfuel)
      · simpa [hsz] using
          SegsRel.stepScrub hs.1 hs.2 hsz (scrubChunk_chunkScrub (rest.take i))
            (ih g2 _ hfuel)

/-- Claim C1: for every content-stream byte buffer, the output of
`scrubStream` decomposes over the segments opened by the leftmost,
non-overlapping font-size-setting-operator matches; a segment whose
numeric operand is within tolerance (default 0.05) of the target size
(default 108.9) has every text-showing operator — the single-string
`(...) Tj` form in the first substitution pass and the array `[...] TJ`
form in the second — replaced by its empty-payload equivalent (`() Tj` /
`[] TJ`), with every byte outside those operator matches preserved
verbatim (`SubD`); non-matching segments, the size operators themselves,
and the bytes before the first size operator are copied verbatim. -/
theorem c1_scrub_segment_rewrite (buf : List Nat) :
    ScrubRel buf (scrubStream buf) := by
  rcases hf : findTf buf with _ | v
  · rw [scrubStream, hf]
    exact ScrubRel.noTf (findTf_none hf)
  · rcases v with ⟨i, n, g⟩
    rw [scrubStream, hf]
    have hs := findTf_some hf
    exact ScrubRel.withTf hs.1 hs.2
      (scrubSegs_rel _ g _ (by simp only [List.length_drop]; omega))

theorem noSizeTf_spec {buf : List Nat} (h : noSizeTf buf = true) :
    ∀ i n g, tryTf (buf.drop i) = some (n, g) → sizeMatch g = false := by
  intro i n g hm
  by_cases hi : i < buf.length
  · have := List.all_eq_true.mp h i (List.mem_range.mpr hi)
    rw [hm] at this
    simpa using this
  · rw [List.drop_eq_nil_of_le (by omega)] at hm
    exact absurd hm (by simp [tryTf_nil])

theorem scrubSegs_id :
    ∀ (f : Nat) (g rest : List Nat), sizeMatch g = false →
      (∀ j n h, tryTf (rest.drop j) = some (n, h) → sizeMatch h = false) →
      scrubSegs f g rest = rest := by
  intro f
  induction f with
  | zero => intro g rest hsz _; simp [scrubSegs, hsz]
  | succ f ih =>
    intro g rest hsz hall
    rcases hf : findTf rest with _ | v
    · simp [scrubSegs, hf, hsz]
    · rcases v with ⟨i, n, g2⟩
      rw [scrubSegs, hf]
      dsimp only
      have hs := findTf_some hf
      have hg2 : sizeMatch g2 = false := hall i n g2 hs.2
      have hshift : ∀ j n' h', tryTf (((rest.drop i).drop n).drop j) = some (n', h') →
          sizeMatch h' = false := by
        intro j n' h' hm
        rw [List.drop_drop, List.drop_drop] at hm
        exact hall _ _ _ hm
      rw [ih g2 _ hg2 hshift, hsz]
      simp only [Bool.false_eq_true, if_false]
      rw [List.append_assoc, List.take_append_drop, List.take_append_drop]

/-- Claim C2: on a buffer in which no position starts a
font-size-setting-operator match whose operand is within tolerance of the
target size, `scrubStream` is the identity; in particular bytes before the
first size operator and non-matching segments are copied unmodified. -/
theorem c2_no_size_match_identity (buf : List Nat) (h : noSizeTf buf = true) :
    scrubStream buf = buf := by
  rcases hf : findTf buf with _ | v
  · rw [scrubStream, hf]
  · rcases v with ⟨i, n, g⟩
    rw [scrubStream, hf]
    dsimp only
    have hs := findTf_some hf
    have hg : sizeMatch g = false := noSizeTf_spec h i n g hs.2
    have hshift : ∀ j n' h', tryTf (((buf.drop i).drop n).drop j) = some (n', h') →
        sizeMatch h' = false := by
      intro j n' h' hm
      rw [List.drop_drop, List.drop_drop] at hm
      exact noSizeTf_spec h _ _ _ hm
    rw [scrubSegs_id _ g _ hg hshift]
    rw [List.append_assoc, List.take_append_drop, List.take_append_drop]

/-- Witness for C2 at the buffer `"/F1 12 Tf (A) Tj"`. -/
theorem c2_witness :
    scrubStream [47, 70, 49, 32, 49, 50, 32, 84, 102, 32, 40, 65, 41, 32, 84, 106]
      = [47, 70, 49, 32, 49, 50, 32, 84, 102, 32, 40, 65, 41, 32, 84, 106] :=
  c2_no_size_match_identity _ (by decide)

theorem digitsVal_foldl (l : List Nat) :
    ∀ a, l.foldl (fun a b => a * 10 + (b - 48)) a
      = a * 10 ^ l.length + digitsVal l := by
  induction l with
  | nil => intro a; simp [digitsVal]
  | cons b t ih =>
    intro a
    have h2 : digitsVal (b :: t)
        = (0 * 10 + (b - 48)) * 10 ^ t.length + digitsVal t :=
      ih (0 * 10 + (b - 48))
    simp only [List.foldl_cons, List.length_cons]
    rw [ih (a * 10 + (b - 48)), h2]
    ring

theorem digitsVal_append (l1 l2 : List Nat) :
    digitsVal (l1 ++ l2) = digitsVal l1 * 10 ^ l2.length + digitsVal l2 := by
  unfold digitsVal
  rw [List.foldl_append, digitsVal_foldl]
  rfl

theorem ratAbs_natAbs (x : Int) : |((x : ℚ))| = ((x.natAbs : Nat) : ℚ) := by
  rw [← Int.cast_abs, Int.abs_eq_natAbs]
  exact Int.cast_natCast _

theorem sizeMatch_iff_groupVal (g : List Nat) :
    sizeMatch g = true ↔ |groupVal g - 1089 / 10| ≤ 1 / 20 := by
  unfold sizeMatch groupVal sizeInt
  rw [decide_eq_true_iff]
  set s := (sgnSplit g).1 with hs
  set iv := digitsVal (intPart g) with hiv
  set fv := digitsVal (fracPart g) with hfv
  set k := (fracPart g).length with hk
  rw [digitsVal_append]
  set sv : Int := (if s then -1 else 1) * ((iv * 10 ^ k + fv : Nat) : Int) with hsv
  set N : Int := 20 * (sv * 10 - 1089 * ((10 ^ k : Nat) : Int)) with hN
  have hval : ((if s then (-1 : ℚ) else 1) * ((iv : ℚ) + (fv : ℚ) / (10 : ℚ) ^ k))
      - 1089 / 10 = ((N : Int) : ℚ) / (20 * 10 ^ (k + 1)) := by
    have h10 : (0 : ℚ) < (10 : ℚ) ^ k := by positivity
    rw [hN, hsv]
    cases s <;> (push_cast; field_simp; ring)
  rw [hval, abs_div,
    abs_of_pos (show (0 : ℚ) < 20 * 10 ^ (k + 1) by positivity)]
  rw [ratAbs_natAbs N]
  rw [div_le_iff₀ (by positivity)]
  rw [show (1 : ℚ) / 20 * (20 * 10 ^ (k + 1)) = ((10 ^ (k + 1) : Nat) : ℚ) by
    push_cast; ring]
  constructor
  · intro h; exact_mod_cast h
  · intro h; exact_mod_cast h

theorem pySplitF_nil_iff :
    ∀ (f : Nat) (s : List Char), s.length ≤ f →
      (pySplitF f s = [] ↔ s.all isPySpace = true) := by
  intro f
  induction f with
  | zero =>
    intro s hs
    have : s = [] := List.eq_nil_of_length_eq_zero (Nat.le_zero.mp hs)
    subst this
    simp [pySplitF]
  | succ f ih =>
    intro s hs
    match s with
    | [] => simp [pySplitF]
    | c :: rest =>
      rw [pySplitF]
      by_cases hc : isPySpace c = true
      · rw [if_pos hc]
        rw [ih rest (by simpa using Nat.succ_le_succ_iff.mp hs)]
        simp [hc]
      · rw [if_neg hc]
        simp [hc]

theorem all_filter_newline (s : List Char) :
    (s.filter (fun c => c ≠ '\n')).all isPySpace = s.all isPySpace := by
  induction s with
  | nil => rfl
  | cons c rest ih =>
    by_cases hc : c = '\n'
    · subst hc
      have h1 : isPySpace '\n' = true := by decide
      simp only [List.filter_cons, decide_not, List.all_cons, h1, Bool.true_and]
      simpa using ih
    · simp only [List.filter_cons, decide_not, List.all_cons]
      have : (decide (c = '\n')) = false := by simpa using hc
      rw [this]
      simp only [decide_not] at ih
      simp only [Bool.not_false, if_true, List.all_cons, ih]

theorem clean_none_iff (s : List Char) :
    clean (some s) = none ↔ s.all isPySpace = true := by
  rw [clean]
  set t := s.filter (fun c => c ≠ '\n') with ht
  by_cases h : (pySplit t).length > 0
  · rw [if_pos h]
    constructor
    · intro hc; exact absurd hc (by simp)
    · intro hall
      have : pySplit t = [] := by
        rw [pySplit, pySplitF_nil_iff t.length t le_rfl, ht, all_filter_newline]
        exact hall
      rw [this] at h
      simp at h
  · rw [if_neg h]
    simp only [true_iff]
    have : pySplit t = [] := by
      cases hp : pySplit t with
      | nil => rfl
      | cons a l => rw [hp] at h; simp at h
    rw [pySplit, pySplitF_nil_iff t.length t le_rfl] at this
    rw [ht, all_filter_newline] at this
    exact this

theorem cleanCell_none_iff (c : Cell) :
    cleanCell c = none ↔ (strCell c).all isPySpace = true :=
  clean_none_iff (strCell c)

theorem strCell_str (s : List Char) : strCell (Cell.str s) = s := rfl

theorem goodRow_merge {prev row : List Cell} (hg : goodRow prev = true)
    (hr : row.head? ≠ none) : goodRow (mergeRows prev row) = true := by
  match prev, row with
  | [], _ => simp [goodRow] at hg
  | _, [] => simp at hr
  | p0 :: pt, c0 :: rt =>
    simp only [goodRow] at hg
    have hp0 : (strCell p0).all isPySpace = false := by
      cases hx : (strCell p0).all isPySpace
      · rfl
      · exfalso
        have h2 := (cleanCell_none_iff p0).mpr hx
        rw [h2] at hg
        simp at hg
    rw [mergeRows]
    simp only [List.zip_cons_cons, List.map_cons, goodRow]
    by_cases hc : pyStrip (strCell c0) = []
    · rw [if_pos hc]
      rw [Option.isSome_iff_ne_none]
      intro hnone
      rw [cleanCell_none_iff, strCell_str] at hnone
      rw [hnone] at hp0
      exact Bool.noConfusion hp0
    · rw [if_neg hc]
      rw [Option.isSome_iff_ne_none]
      intro hnone
      rw [cleanCell_none_iff, strCell_str, List.all_append, Bool.and_eq_true] at hnone
      rw [hnone.1] at hp0
      exact Bool.noConfusion hp0

theorem goodRow_of_head {row : List Cell} {c0 : Cell}
    (hh : row.head? = some c0) (hc : (cleanCell c0).isSome = true) :
    goodRow row = true := by
  cases row with
  | nil => exact Option.noConfusion hh
  | cons d0 dt =>
    simp only [List.head?_cons, Option.some.injEq] at hh
    subst hh
    simpa [goodRow] using hc

theorem fixAux_good :
    ∀ (rows acc res : List (List Cell)),
      (∀ r ∈ acc, goodRow r = true) → fixAux acc rows = some res →
      ∀ r ∈ res, goodRow r = true := by
  intro rows
  induction rows with
  | nil =>
    intro acc res hacc h r hr
    rw [fixAux] at h
    simp only [Option.some.injEq] at h
    subst h
    exact hacc r (List.mem_reverse.mp hr)
  | cons row rest ih =>
    intro acc res hacc h r hr
    simp only [fixAux] at h
    rcases hh : row.head? with _ | c0
    · rw [hh] at h; exact Option.noConfusion h
    · rw [hh] at h
      dsimp only at h
      rcases hc : cleanCell c0 with _ | v
      · rw [hc] at h
        dsimp only at h
        match acc with
        | [] => exact Option.noConfusion h
        | prev :: acc2 =>
          refine ih (mergeRows prev row :: acc2) res ?_ h r hr
          intro r2 hr2
          rcases List.mem_cons.mp hr2 with h2 | h2
          · subst h2
            exact goodRow_merge (hacc prev (List.mem_cons_self _ _)) (by simp [hh])
          · exact hacc r2 (List.mem_cons_of_mem _ h2)
      · rw [hc] at h
        dsimp only at h
        refine ih (row :: acc) res ?_ h r hr
        intro r2 hr2
        rcases List.mem_cons.mp hr2 with h2 | h2
        · subst h2
          exact goodRow_of_head hh (by simp [hc])
        · exact hacc r2 h2

theorem fixAux_all_good :
    ∀ (rows acc : List (List Cell)),
      (∀ r ∈ rows, goodRow r = true) →
      fixAux acc rows = some (acc.reverse ++ rows) := by
  intro rows
  induction rows with
  | nil => intro acc _; rw [fixAux]; simp
  | cons row rest ih =>
    intro acc hall
    have hrow : goodRow row = true := hall row (List.mem_cons_self _ _)
    simp only [fixAux]
    rcases hh : row.head? with _ | c0
    · cases row with
      | nil => simp [goodRow] at hrow
      | cons d0 dt => exact Option.noConfusion hh
    · dsimp only
      have hc : (cleanCell c0).isSome = true := by
        cases row with
        | nil => exact Option.noConfusion hh
        | cons d0 dt =>
          simp only [List.head?_cons, Option.some.injEq] at hh
          subst hh
          simpa [goodRow] using hrow
      rcases hcc : cleanCell c0 with _ | v
      · rw [hcc] at hc; simp at hc
      · rw [ih (row :: acc) (fun r hr => hall r (List.mem_cons_of_mem _ hr))]
        simp

theorem fixContinuation_good {rows res : List (List Cell)}
    (h : fixContinuation rows = some res) : ∀ r ∈ res, goodRow r = true :=
  fixAux_good rows [] res (by simp) h

/-- Claim C4: `fixContinuation` is idempotent on every table it returns a
result for — every output row has a first cell that does not normalize to
null, so a second pass appends each row unchanged and merges nothing. -/
theorem c4_stitch_idempotent (rows res : List (List Cell))
    (h : fixContinuation rows = some res) :
    fixContinuation res = some res ∧ ∀ r ∈ res, goodRow r = true := by
  have hg := fixContinuation_good h
  constructor
  · have := fixAux_all_good res [] hg
    simpa [fixContinuation] using this
  · exact hg

/-- Witness for C4 on a two-row table with one continuation row. -/
theorem c4_witness :
    fixContinuation
        [[Cell.str ['a'], Cell.str ['x']], [Cell.str [' '], Cell.str ['y']]]
      = some [[Cell.str ['a'], Cell.str ['x', ' ', 'y']]] ∧
    fixContinuation [[Cell.str ['a'], Cell.str ['x', ' ', 'y']]]
      = some [[Cell.str ['a'], Cell.str ['x', ' ', 'y']]] := by
  constructor
  · decide
  · exact (c4_stitch_idempotent
        [[Cell.str ['a'], Cell.str ['x']], [Cell.str [' '], Cell.str ['y']]]
        [[Cell.str ['a'], Cell.str ['x', ' ', 'y']]] (by decide)).1

/-- Claim C8: `clean` removes newline characters, collapses whitespace
runs to single spaces and trims the edges (`clean(" a \n b ") = "a b"`),
and returns null exactly when the result is empty (`clean("") = null`,
`clean("   ") = null`; in general null exactly on all-whitespace input). -/
theorem c8_clean_spec :
    clean (some [' ', 'a', ' ', '\n', ' ', 'b', ' ']) = some ['a', ' ', 'b']
    ∧ clean (some []) = none
    ∧ clean (some [' ', ' ', ' ']) = none
    ∧ ∀ s : List Char, (clean (some s) = none ↔ s.all isPySpace = true) :=
  ⟨by decide, by decide, by decide, clean_none_iff⟩

/-- Witness for C8 at the whitespace-only string `"\t "`. -/
theorem c8_witness : clean (some ['\t', ' ']) = none :=
  (c8_clean_spec.2.2.2 ['\t', ' ']).mpr (by decide)

theorem fixAux_total :
    ∀ (rows acc : List (List Cell)), acc ≠ [] → (∀ r ∈ rows, r ≠ []) →
      (fixAux acc rows).isSome = true := by
  intro rows
  induction rows with
  | nil => intro acc _ _; rw [fixAux]; rfl
  | cons row rest ih =>
    intro acc hacc hall
    simp only [fixAux]
    rcases hh : row.head? with _ | c0
    · exact absurd (List.head?_eq_none_iff.mp hh)
        (hall row (List.mem_cons_self _ _))
    · dsimp only
      rcases hc : cleanCell c0 with _ | v
      · match acc, hacc with
        | prev :: acc2, _ =>
          exact ih (mergeRows prev row :: acc2) (by simp)
            (fun r hr => hall r (List.mem_cons_of_mem _ hr))
      · exact ih (row :: acc) (by simp)
          (fun r hr => hall r (List.mem_cons_of_mem _ hr))

/-- Claim C10: `fix_continuation` is not total at its public interface —
on any table whose first row's first cell normalizes to empty (for example
a whitespace-only string, which the caller's pre-drop guard does not
remove) it indexes the last element of the still-empty output list and
raises (`none`); under the precondition that the first row's first cell
normalizes to non-empty, that branch is unreachable and the function
returns a table. -/
theorem c10_fix_continuation_raises :
    (∀ (c0 : Cell) (t : List Cell) (rest : List (List Cell)),
      cleanCell c0 = none → fixContinuation ((c0 :: t) :: rest) = none)
    ∧ (∀ (c0 : Cell) (t : List Cell) (rest : List (List Cell)),
      cleanCell c0 ≠ none → (∀ r ∈ rest, r ≠ []) →
      (fixContinuation ((c0 :: t) :: rest)).isSome = true) := by
  constructor
  · intro c0 t rest hc
    rw [fixContinuation]
    simp only [fixAux, List.head?_cons, hc]
  · intro c0 t rest hc hall
    rw [fixContinuation]
    simp only [fixAux, List.head?_cons]
    rcases hcc : cleanCell c0 with _ | v
    · exact absurd hcc hc
    · dsimp only
      exact fixAux_total rest [c0 :: t] (by simp) hall

/-- Witness for C10: a whitespace-only first cell raises, a non-blank one
succeeds. -/
theorem c10_witness :
    fixContinuation [[Cell.str [' '], Cell.str ['x']]] = none
    ∧ (fixContinuation [[Cell.str ['a'], Cell.str ['x']]]).isSome = true :=
  ⟨c10_fix_continuation_raises.1 (Cell.str [' ']) [Cell.str ['x']] []
      (by decide),
   c10_fix_continuation_raises.2 (Cell.str ['a']) [Cell.str ['x']] []
      (by decide) (by simp)⟩

/-- Counterexample to claim C3: the table's first row has a
whitespace-only first cell, which normalizes to null (`cleanCell` is
`none`), yet the code does not drop the row — the pre-drop guard tests
only `isna`/`== ""` — and the stitching stage raises (`none`) instead of
returning the table with the row dropped. -/
theorem c3_first_row_counterexample :
    cleanCell (Cell.str [' ']) = none
    ∧ extractMasb [⟨6, [[Cell.str [' '], Cell.str ['A'], Cell.str ['A'],
          Cell.str ['A'], Cell.str ['A'], Cell.str ['A']],
        [Cell.str ['B'], Cell.str ['B'], Cell.str ['B'], Cell.str ['B'],
          Cell.str ['B'], Cell.str ['B']],
        [Cell.str ['C'], Cell.str ['C'], Cell.str ['C'], Cell.str ['C'],
          Cell.str ['C'], Cell.str ['C']]]⟩] = none := by
  constructor
  · decide
  · decide

/-- Claim C3 as amended: the first row of the concatenated restriction
table is dropped, once and unconditionally, exactly when its first cell is
a missing value or the exact empty string (the rest of the pipeline then
runs on the remaining rows); a whitespace-only first cell is not dropped
and instead makes the stitching stage raise, failing the document. -/
theorem c3_first_row_drop_amended :
    (∀ (c0 : Cell) (t : List Cell) (rest : List (List Cell)),
      cellNaOrEmpty c0 = true →
      extractMasb [⟨6, (c0 :: t) :: rest⟩] =
        (match fixContinuation rest with
         | none => none
         | some [] => none
         | some (_ :: tl) => some ⟨6, tl⟩))
    ∧ (∀ (s : List Char) (t : List Cell) (rest : List (List Cell)),
      cleanCell (Cell.str s) = none → s.isEmpty = false →
      extractMasb [⟨6, (Cell.str s :: t) :: rest⟩] = none) := by
  constructor
  · intro c0 t rest hguard
    simp only [extractMasb, List.filter, List.map, List.flatten,
      List.isEmpty, List.head?_cons]
    norm_num
    rw [hguard]
    simp
  · intro s t rest hclean hne
    simp only [extractMasb, List.filter, List.map, List.flatten,
      List.isEmpty, List.head?_cons]
    norm_num
    have hguard : cellNaOrEmpty (Cell.str s) = false := by
      simpa [cellNaOrEmpty] using hne
    rw [hguard]
    simp only [if_false, Bool.false_eq_true]
    rw [fixContinuation]
    simp only [fixAux, List.head?_cons, hclean]

/-- Witness for the amended C3: a missing-value first cell is dropped and
the remaining rows are stitched and header-dropped as usual. -/
theorem c3_amended_witness :
    extractMasb [⟨6, [[Cell.na, Cell.str ['h'], Cell.str ['h'], Cell.str ['h'],
        Cell.str ['h'], Cell.str ['h']],
      [Cell.str ['A'], Cell.str ['A'], Cell.str ['A'], Cell.str ['A'],
        Cell.str ['A'], Cell.str ['A']],
      [Cell.str ['B'], Cell.str ['B'], Cell.str ['B'], Cell.str ['B'],
        Cell.str ['B'], Cell.str ['B']]]⟩]
      = some ⟨6, [[Cell.str ['B'], Cell.str ['B'], Cell.str ['B'],
          Cell.str ['B'], Cell.str ['B'], Cell.str ['B']]]⟩ := by
  rw [c3_first_row_drop_amended.1 Cell.na
    [Cell.str ['h'], Cell.str ['h'], Cell.str ['h'], Cell.str ['h'],
      Cell.str ['h']] _ (by decide)]
  decide

/-- Claim C5, code bug, evaluated at the failing input: a table in which
no description has a colon makes `extract_aciklama` raise (the `else`
branch builds a one-column `tarih_fileno` frame, and assigning the four
column names to the three-column concatenation is a `ValueError`) instead
of retaining the rows with null fields.  The second conjunct shows the
claim's example behaviour on a mixed table: the matching row decomposes to
type `"Haciz"`, date `"01/01/2020"`, file number `"123/45"`, and the
colonless row is retained with all-null fields. -/
theorem c5_extract_aciklama_bug :
    extract_aciklama [some "SATIŞ VAADİ".toList] = none
    ∧ extract_aciklama [some "HACİZ: X 01/01/2020 TARİH 123/45".toList,
        some "SATIŞ VAADİ".toList]
      = some [⟨some "Haciz".toList, some "X 01/01/2020 TARİH 123/45".toList,
          some "01/01/2020".toList, some "123/45".toList⟩,
        ⟨none, none, none, none⟩] :=
  ⟨by decide, by decide⟩

theorem giTry_keys {dfs : List Table} {l : List (String × PyVal)}
    (h : giTry dfs = some l) : l.map Prod.fst = giKeys := by
  simp only [giTry, bind, Option.bind_eq_some, Option.pure_def,
    Option.some.injEq] at h
  obtain ⟨c1, -, c2, -, ct, -, tk, -, ci, -, cb, -, ck, -, cm, -, ca, -,
    cn, -, hl⟩ := h
  subst hl
  rfl

theorem extract_general_info_keys (dfs : List Table) :
    extract_general_info dfs = []
    ∨ (extract_general_info dfs).map Prod.fst = giKeys := by
  rw [extract_general_info]
  split
  · exact Or.inl rfl
  · rcases hg : giTry dfs with _ | l
    · exact Or.inl rfl
    · exact Or.inr (giTry_keys hg)

/-- Claim C7: general-info extraction is all-or-nothing — it returns
either the empty dict or a dict with exactly the twelve document-level
keys; every record a document yields carries that document's general-info
dict (broadcast by `assign(**general_info)`); and a document whose
pipeline fails contributes zero records. -/
theorem c7_general_info_broadcast :
    (∀ dfs : List Table, extract_general_info dfs = []
        ∨ (extract_general_info dfs).map Prod.fst = giKeys)
    ∧ (∀ (tables : List Table) (name : String) (rows : List FinalRow),
        processSinglePdf tables name = some rows →
        extract_general_info tables ≠ []
        ∧ (extract_general_info tables).map Prod.fst = giKeys
        ∧ ∀ r ∈ rows, r.general = extract_general_info tables)
    ∧ (∀ d : Doc, processSinglePdf d.tables d.name = none →
        docRecords d = []) := by
  refine ⟨extract_general_info_keys, ?_, ?_⟩
  · intro tables name rows h
    rw [processSinglePdf] at h
    split at h
    · exact Option.noConfusion h
    split at h
    · exact Option.noConfusion h
    rename_i hgiB
    have hne : extract_general_info tables ≠ [] := fun he => hgiB (by simp [he])
    refine ⟨hne, ?_, ?_⟩
    · rcases extract_general_info_keys tables with hk | hk
      · exact absurd hk hne
      · exact hk
    · split at h
      · exact Option.noConfusion h
      split at h
      · exact Option.noConfusion h
      split at h
      · exact Option.noConfusion h
      split at h
      · exact Option.noConfusion h
      simp only [Option.some.injEq] at h
      subst h
      intro r hr
      rw [assembleRows] at hr
      rcases List.mem_map.mp hr with ⟨p, -, hval⟩
      subst hval
      rfl
  · intro d h
    rw [docRecords, h]

/-- Witness for C7 at the sample document. -/
theorem c7_witness :
    extract_general_info gdDoc.tables ≠ []
    ∧ (extract_general_info gdDoc.tables).map Prod.fst = giKeys
    ∧ ∀ r ∈ [gdRow], r.general = extract_general_info gdDoc.tables :=
  c7_general_info_broadcast.2.1 gdDoc.tables "good.pdf" [gdRow] (by decide)

theorem pmLoop_spec (total : Nat) :
    ∀ (ds : List Doc) (i : Nat),
      (pmLoop total i ds).1.flatten = ds.flatMap docRecords
      ∧ (pmLoop total i ds).2.1
          = (ds.filter (fun d => (docRecords d).isEmpty)).length
      ∧ (pmLoop total i ds).1.length
          = (ds.filter (fun d => !(docRecords d).isEmpty)).length
      ∧ (∀ e ∈ (pmLoop total i ds).2.2, ∃ c t ok, e = Event.progress c t ok)
      ∧ (∀ l ∈ (pmLoop total i ds).1, l ≠ []) := by
  intro ds
  induction ds with
  | nil => intro i; simp [pmLoop]
  | cons d rest ih =>
    intro i
    have hrec := ih (i + 1)
    rw [pmLoop]
    rcases hp : processSinglePdf d.tables d.name with _ | l
    · have hd : docRecords d = [] := by rw [docRecords, hp]
      simp only [List.flatMap_cons, List.filter_cons, hd]
      refine ⟨by simpa using hrec.1, by simpa using hrec.2.1,
        by simpa using hrec.2.2.1, ?_, by simpa using hrec.2.2.2.2⟩
      intro e he
      simp only [List.mem_cons] at he
      rcases he with he | he
      · exact ⟨i, total, _, he⟩
      · exact hrec.2.2.2.1 e he
    · match l with
      | [] =>
        have hd : docRecords d = [] := by rw [docRecords, hp]
        simp only [List.flatMap_cons, List.filter_cons, hd]
        refine ⟨by simpa using hrec.1, by simpa using hrec.2.1,
          by simpa using hrec.2.2.1, ?_, by simpa using hrec.2.2.2.2⟩
        intro e he
        simp only [List.mem_cons] at he
        rcases he with he | he
        · exact ⟨i, total, _, he⟩
        · exact hrec.2.2.2.1 e he
      | x :: xs =>
        have hd : docRecords d = x :: xs := by rw [docRecords, hp]
        simp only [List.flatMap_cons, List.filter_cons, hd]
        refine ⟨by simpa using hrec.1, by simpa using hrec.2.1,
          by simpa using hrec.2.2.1, ?_, ?_⟩
        · intro e he
          simp only [List.mem_cons] at he
          rcases he with he | he
          · exact ⟨i, total, _, he⟩
          · exact hrec.2.2.2.1 e he
        · intro l2 hl2
          simp only [List.mem_cons] at hl2
          rcases hl2 with hl2 | hl2
          · subst hl2; exact List.cons_ne_nil _ _
          · exact hrec.2.2.2.2 l2 hl2

/-- Claim C6: the batch output is exactly the concatenation, in order, of
each document's own records (so a failing document contributes zero
records and never disturbs its siblings — the loop is total), and the
`complete` event's counters are exactly the number of succeeding and the
number of failing documents; when every document fails the batch yields an
empty frame and an `error` event. -/
theorem c6_batch_isolation (docs : List Doc) :
    (processMultiplePdfs docs).1 = docs.flatMap docRecords
    ∧ (∀ p f, Event.complete p f ∈ (processMultiplePdfs docs).2 →
        p = (docs.filter (fun d => !(docRecords d).isEmpty)).length
        ∧ f = (docs.filter (fun d => (docRecords d).isEmpty)).length)
    ∧ ((docs.any (fun d => !(docRecords d).isEmpty)) = true →
        Event.complete
            (docs.filter (fun d => !(docRecords d).isEmpty)).length
            (docs.filter (fun d => (docRecords d).isEmpty)).length
          ∈ (processMultiplePdfs docs).2)
    ∧ ((docs.all (fun d => (docRecords d).isEmpty)) = true →
        (processMultiplePdfs docs).1 = []
        ∧ Event.error ∈ (processMultiplePdfs docs).2) := by
  have hs := pmLoop_spec docs.length docs 1
  rw [processMultiplePdfs]
  by_cases hE : (pmLoop docs.length 1 docs).1.isEmpty
  · rw [if_pos hE]
    have h0 : (pmLoop docs.length 1 docs).1 = [] := by
      cases hx : (pmLoop docs.length 1 docs).1
      · rfl
      · rw [hx] at hE; simp at hE
    refine ⟨?_, ?_, ?_, ?_⟩
    · rw [← hs.1, h0]
      rfl
    · intro p f hmem
      simp only [List.mem_cons, List.mem_append, List.mem_singleton] at hmem
      rcases hmem with (hmem | hmem) | hmem | hmem
      · exact Event.noConfusion hmem
      · rcases hs.2.2.2.1 _ hmem with ⟨c, t, ok, he⟩
        exact Event.noConfusion he
      · exact Event.noConfusion hmem
      · exact absurd hmem (List.not_mem_nil _)
    · intro hany
      exfalso
      rcases List.any_eq_true.mp hany with ⟨d, hd, hdne⟩
      have hmem : d ∈ docs.filter (fun x => !(docRecords x).isEmpty) :=
        List.mem_filter.mpr ⟨hd, hdne⟩
      have hflen : (docs.filter (fun x => !(docRecords x).isEmpty)).length = 0 := by
        rw [← hs.2.2.1, h0]
        rfl
      rw [List.length_eq_zero.mp hflen] at hmem
      exact List.not_mem_nil d hmem
    · intro _
      exact ⟨rfl, by simp⟩
  · rw [if_neg hE]
    refine ⟨hs.1, ?_, ?_, ?_⟩
    · intro p f hmem
      simp only [List.mem_cons, List.mem_append, List.mem_singleton] at hmem
      rcases hmem with (hmem | hmem) | hmem | hmem
      · exact Event.noConfusion hmem
      · rcases hs.2.2.2.1 _ hmem with ⟨c, t, ok, he⟩
        exact Event.noConfusion he
      · have h1 := Event.complete.inj hmem
        exact ⟨h1.1.trans hs.2.2.1, h1.2.trans hs.2.1⟩
      · exact absurd hmem (List.not_mem_nil _)
    · intro _
      rw [← hs.2.2.1, ← hs.2.1]
      simp
    · intro hall
      exfalso
      have hfe : docs.filter (fun x => !(docRecords x).isEmpty) = [] := by
        rw [List.filter_eq_nil_iff]
        intro d hd
        have hh := List.all_eq_true.mp hall d hd
        simp only [Bool.not_eq_true]
        simpa using hh
      have hlen : (pmLoop docs.length 1 docs).1.length = 0 := by
        rw [hs.2.2.1, hfe]
        rfl
      rw [List.length_eq_zero.mp hlen] at hE
      simp at hE

/-- Witness for C6 on a two-document batch with one failure. -/
theorem c6_witness :
    (processMultiplePdfs [gdDoc, bdDoc]).1 = [gdDoc, bdDoc].flatMap docRecords
    ∧ 1 = ([gdDoc, bdDoc].filter (fun d => !(docRecords d).isEmpty)).length
    ∧ 1 = ([gdDoc, bdDoc].filter (fun d => (docRecords d).isEmpty)).length :=
  ⟨(c6_batch_isolation [gdDoc, bdDoc]).1,
   (c6_batch_isolation [gdDoc, bdDoc]).2.1 1 1 (by decide)⟩


theorem postTerminalOk_skip_progress :
    ∀ (l tail : List Event),
      (∀ e ∈ l, ∃ c t ok, e = Event.progress c t ok) →
      postTerminalOk (l ++ tail) = postTerminalOk tail := by
  intro l
  induction l with
  | nil => intro tail _; rfl
  | cons e rest ih =>
    intro tail hall
    rcases hall e (List.mem_cons_self _ _) with ⟨c, t, ok, he⟩
    subst he
    simp only [List.cons_append, postTerminalOk]
    exact ih tail (fun e2 he2 => hall e2 (List.mem_cons_of_mem _ he2))

/-- Counterexample to claim C9: in a batch where the only document fails,
the producer writes an `error` event three times (the batch loop's
empty-frames branch, the `process_pdf_files` wrapper, and the job worker
each emit one), so events are written to the job's channel after the
first terminal event, and "exactly one terminal error event, never two"
is false. -/
theorem c9_terminal_counterexample :
    noEventAfterTerminal
        (processJobEvents [⟨[], "a.pdf"⟩] Fmt.excel true) = false
    ∧ (processJobEvents [⟨[], "a.pdf"⟩] Fmt.excel true).count Event.error
        = 3 :=
  ⟨by decide, by decide⟩

/-- Claim C9 as amended: nothing at all is written after a `finished`
event, and everything written after an `error` event is again an `error`
event (the wrapper and the job worker re-emit the failure); in particular
no non-error event ever follows a terminal event. -/
theorem c9_terminal_amended (docs : List Doc) (fmt : Fmt) (writeOk : Bool) :
    postTerminalOk (processJobEvents docs fmt writeOk) = true := by
  have hs := pmLoop_spec docs.length docs 1
  rw [processJobEvents, processPdfFiles, processMultiplePdfs]
  by_cases hE : (pmLoop docs.length 1 docs).1.isEmpty
  · rw [if_pos hE]
    simp only [List.isEmpty_nil, if_true, List.append_eq, List.cons_append,
      List.append_assoc, postTerminalOk]
    rw [postTerminalOk_skip_progress _ _ hs.2.2.2.1]
    rfl
  · rw [if_neg hE]
    have hflat : ((pmLoop docs.length 1 docs).1.flatten).isEmpty = false := by
      cases hx : (pmLoop docs.length 1 docs).1 with
      | nil => rw [hx] at hE; simp at hE
      | cons a rest =>
        have ha : a ≠ [] :=
          hs.2.2.2.2 a (by rw [hx]; exact List.mem_cons_self _ _)
        cases haa : a with
        | nil => exact absurd haa ha
        | cons b bt => simp [List.flatten]
    simp only [hflat, Bool.false_eq_true, if_false]
    cases fmt <;> cases writeOk <;>
      simp only [if_true, if_false, reduceCtorEq, reduceIte,
        List.append_eq, List.cons_append, List.append_assoc,
        postTerminalOk] <;>
      rw [postTerminalOk_skip_progress _ _ hs.2.2.2.1] <;>
      rfl
